import Mathlib

/-!
Verification of the byte-num decimal ASCII codec.

The repository implements conversion between decimal ASCII byte sequences and
fixed-width integers (u8/u16/u32/u64 and the signed counterparts).  Machine
integers of width w are modelled as Nat, reduced modulo 2 ^ w wherever the
source performs arithmetic that wraps in release builds (wrapping_add,
wrapping_sub, and the plain + and * of release mode).  Byte slices are
List Nat, each element a u8 value (< 256).  Signed values are modelled as Int
in two's-complement style via toSigned / sWrap / toUnsigned below.
-/

namespace ByteNum

/-- Error type of src/from_ascii.rs (ParseIntErr).  InvalidDigit carries the
offending byte (stored as [u8; 1] in the source). -/
inductive ParseIntErr where
  | InvalidDigit (b : Nat) : ParseIntErr
  | Overflow : ParseIntErr
deriving DecidableEq

instance {ε : Type u} {α : Type v} [DecidableEq ε] [DecidableEq α] :
    DecidableEq (Except ε α) := fun a b =>
  match a, b with
  | Except.ok x, Except.ok y => decidable_of_iff (x = y) (by simp)
  | Except.error x, Except.error y => decidable_of_iff (x = y) (by simp)
  | Except.ok _, Except.error _ => isFalse (by simp)
  | Except.error _, Except.ok _ => isFalse (by simp)

/-- const ASCII_TO_INT_FACTOR: u8 = 48 -/
def ASCII_TO_INT_FACTOR : Nat := 48

/-- const POW10_U8: [u8; 3] -/
def POW10_U8 : List Nat := [100, 10, 1]

/-- const POW10_U16: [u16; 5] -/
def POW10_U16 : List Nat := [10000, 1000, 100, 10, 1]

/-- const POW10_U32: [u32; 10] -/
def POW10_U32 : List Nat :=
  [1000000000, 100000000, 10000000, 1000000, 100000,
   10000, 1000, 100, 10, 1]

/-- const POW10_U64: [u64; 20] -/
def POW10_U64 : List Nat :=
  [10000000000000000000, 1000000000000000000, 100000000000000000,
   10000000000000000, 1000000000000000, 100000000000000, 10000000000000,
   1000000000000, 100000000000, 10000000000, 1000000000, 100000000,
   10000000, 1000000, 100000, 10000, 1000, 100, 10, 1]

/-- fn parse_byte of src/from_ascii.rs: wrapping u8 subtraction of 48, the
single d > 9 digit check, and the (wrapping, width w) multiply by the power of
ten.  The error rebuilds the original byte by wrapping_add of 48. -/
def parse_byte (w : Nat) (byte : Nat) (pow10 : Nat) : Except ParseIntErr Nat :=
  let d := (byte + 256 - ASCII_TO_INT_FACTOR) % 256
  if d > 9 then
    Except.error (ParseIntErr.InvalidDigit ((d + ASCII_TO_INT_FACTOR) % 256))
  else
    Except.ok (d * pow10 % 2 ^ w)

/-- The byte-at-a-time accumulation loop of the u8 specialisation of
bytes_to_int in src/from_ascii.rs: iterate over the zip of the input bytes
with the tail of the power table, wrapping_add each parsed contribution. -/
def parseLoop (w : Nat) : List Nat → List Nat → Nat → Except ParseIntErr Nat
  | b :: bs, p :: ps, result =>
    match parse_byte w b p with
    | Except.error e => Except.error e
    | Except.ok r => parseLoop w bs ps ((result + r) % 2 ^ w)
  | _, _, result => Except.ok result

/-- The chunks_exact(4) accumulation of the generic unsigned bytes_to_int in
src/from_ascii.rs: full 4-byte groups are parsed against 4 table entries and
folded in with wrapping_add; the trailing remainder of < 4 bytes then goes
through the same zip loop as the u8 specialisation (parseLoop above, which is
byte for byte the source's remainder loop). -/
def bytesToIntCore (w : Nat) : List Nat → List Nat → Nat → Except ParseIntErr Nat
  | a :: b :: c :: d :: bs, p1 :: p2 :: p3 :: p4 :: ps, result =>
    match parse_byte w a p1 with
    | Except.error e => Except.error e
    | Except.ok r1 =>
      match parse_byte w b p2 with
      | Except.error e => Except.error e
      | Except.ok r2 =>
        match parse_byte w c p3 with
        | Except.error e => Except.error e
        | Except.ok r3 =>
          match parse_byte w d p4 with
          | Except.error e => Except.error e
          | Except.ok r4 =>
            bytesToIntCore w bs ps ((result + (r1 + r2 + r3 + r4) % 2 ^ w) % 2 ^ w)
  | bs, ps, result => parseLoop w bs ps result

/-- Generic unsigned bytes_to_int of src/from_ascii.rs: Overflow when the
input is longer than the table, otherwise accumulate against the last
bytes.len() table entries (idx = table.len() - bytes.len()). -/
def bytes_to_int (w : Nat) (table : List Nat) (bytes : List Nat) :
    Except ParseIntErr Nat :=
  if bytes.length > table.length then Except.error ParseIntErr.Overflow
  else bytesToIntCore w bytes (table.drop (table.length - bytes.length)) 0

/-- u8 specialisation of bytes_to_int in src/from_ascii.rs (plain zip loop,
no 4-chunking). -/
def u8_bytes_to_int (bytes : List Nat) : Except ParseIntErr Nat :=
  if bytes.length > POW10_U8.length then Except.error ParseIntErr.Overflow
  else parseLoop 8 bytes (POW10_U8.drop (POW10_U8.length - bytes.length)) 0

/-- impl FromAscii for u16 (src/from_ascii.rs). -/
def u16_bytes_to_int (bytes : List Nat) : Except ParseIntErr Nat :=
  bytes_to_int 16 POW10_U16 bytes

/-- impl FromAscii for u32 (src/from_ascii.rs). -/
def u32_bytes_to_int (bytes : List Nat) : Except ParseIntErr Nat :=
  bytes_to_int 32 POW10_U32 bytes

/-- impl FromAscii for u64 (src/from_ascii.rs). -/
def u64_bytes_to_int (bytes : List Nat) : Except ParseIntErr Nat :=
  bytes_to_int 64 POW10_U64 bytes

/-- Reinterpret an unsigned width-w value as a signed one (the Rust
`as` cast to the signed type of the same width). -/
def toSigned (w : Nat) (v : Nat) : Int :=
  if v < 2 ^ (w - 1) then (v : Int) else (v : Int) - 2 ^ w

/-- Wrap a signed intermediate result into the representable range of a
width-w signed integer (two's-complement wrapping, the release-build
behaviour of overflowing signed arithmetic). -/
def sWrap (w : Nat) (i : Int) : Int :=
  (i + 2 ^ (w - 1)) % (2 ^ w : Int) - 2 ^ (w - 1)

/-- The Rust `as` cast from a signed width-w value to the unsigned type of
the same width. -/
def toUnsigned (w : Nat) (i : Int) : Nat :=
  (i % (2 ^ w : Int)).toNat

/-- signed_from_ascii! bytes_to_int of src/from_ascii.rs: strip a leading
minus byte, parse the rest with the unsigned engine of the same width, cast,
and negate (wrapping) when the minus was present. -/
def signed_bytes_to_int (w : Nat) (uparse : List Nat → Except ParseIntErr Nat)
    (bytes : List Nat) : Except ParseIntErr Int :=
  if bytes.head? = some 45 then
    (uparse (bytes.drop 1)).map fun v => sWrap w (-(toSigned w v))
  else
    (uparse bytes).map fun v => toSigned w v

/-- impl FromAscii for i8 (src/from_ascii.rs). -/
def i8_bytes_to_int (bytes : List Nat) : Except ParseIntErr Int :=
  signed_bytes_to_int 8 u8_bytes_to_int bytes

/-- impl FromAscii for i16 (src/from_ascii.rs). -/
def i16_bytes_to_int (bytes : List Nat) : Except ParseIntErr Int :=
  signed_bytes_to_int 16 u16_bytes_to_int bytes

/-- impl FromAscii for i32 (src/from_ascii.rs). -/
def i32_bytes_to_int (bytes : List Nat) : Except ParseIntErr Int :=
  signed_bytes_to_int 32 u32_bytes_to_int bytes

/-- impl FromAscii for i64 (src/from_ascii.rs). -/
def i64_bytes_to_int (bytes : List Nat) : Except ParseIntErr Int :=
  signed_bytes_to_int 64 u64_bytes_to_int bytes

/-- The scalar remainder loop that closes both the unsigned bytes_to_int of
src/convert.rs and bytes_to_int_simd of src/convert_simd.rs (the two loops
are identical in the source): wrapping u8 subtract of 48, the d > 9 test,
wrapping multiply by the table entry and wrapping add into the result. -/
def scalarTail (w : Nat) : List Nat → List Nat → Nat → Except Unit Nat
  | b :: bs, p :: ps, result =>
    if (b + 256 - ASCII_TO_INT_FACTOR) % 256 > 9 then Except.error ()
    else
      scalarTail w bs ps
        ((result + (b + 256 - ASCII_TO_INT_FACTOR) % 256 * p % 2 ^ w) % 2 ^ w)
  | _, _, result => Except.ok result

/-- The unsigned bytes_to_int of src/convert.rs (impl_unsigned_conversions!):
no length check (the source computes idx = table_len - len with unchecked
table accesses, so the caller must guarantee len <= table_len; theorems about
this engine carry that hypothesis).  A 4-unrolled while loop with the
sequential atoi_unroll digit checks, then the scalar remainder loop.  The
error type is the unit type, as in the source (Result<Self, ()>). -/
def convertCore (w : Nat) : List Nat → List Nat → Nat → Except Unit Nat
  | a :: b :: c :: d :: bs, p1 :: p2 :: p3 :: p4 :: ps, result =>
    if (a + 256 - ASCII_TO_INT_FACTOR) % 256 > 9 then Except.error ()
    else if (b + 256 - ASCII_TO_INT_FACTOR) % 256 > 9 then Except.error ()
    else if (c + 256 - ASCII_TO_INT_FACTOR) % 256 > 9 then Except.error ()
    else if (d + 256 - ASCII_TO_INT_FACTOR) % 256 > 9 then Except.error ()
    else
      convertCore w bs ps
        ((result + ((a + 256 - ASCII_TO_INT_FACTOR) % 256 * p1 % 2 ^ w
          + (b + 256 - ASCII_TO_INT_FACTOR) % 256 * p2 % 2 ^ w
          + (c + 256 - ASCII_TO_INT_FACTOR) % 256 * p3 % 2 ^ w
          + (d + 256 - ASCII_TO_INT_FACTOR) % 256 * p4 % 2 ^ w) % 2 ^ w) % 2 ^ w)
  | bs, ps, result => scalarTail w bs ps result

/-- impl FromAscii for u32 in src/convert.rs. -/
def u32_bytes_to_int_c (bytes : List Nat) : Except Unit Nat :=
  convertCore 32 bytes (POW10_U32.drop (POW10_U32.length - bytes.length)) 0

/-- impl FromAscii for u64 in src/convert.rs. -/
def u64_bytes_to_int_c (bytes : List Nat) : Except Unit Nat :=
  convertCore 64 bytes (POW10_U64.drop (POW10_U64.length - bytes.length)) 0

/-- The vectorised loop of bytes_to_int_simd in src/convert_simd.rs: four u8
lanes are wrapping-subtracted by 48 at once, a single any-lane > 9 test
rejects the whole group, the four lanes are widened and multiplied by four
consecutive table entries and added lanewise (wrapping) into the four
accumulator lanes.  On exit the lanes are folded with wrapping_sum and the
remaining < 4 bytes go through the scalar tail loop (scalarTail, identical
to the convert.rs remainder loop in the source). -/
def simdGo (w : Nat) : List Nat → List Nat → Nat × Nat × Nat × Nat → Except Unit Nat
  | a :: b :: c :: d :: bs, p1 :: p2 :: p3 :: p4 :: ps, (s1, s2, s3, s4) =>
    if (a + 256 - ASCII_TO_INT_FACTOR) % 256 > 9 ∨
        (b + 256 - ASCII_TO_INT_FACTOR) % 256 > 9 ∨
        (c + 256 - ASCII_TO_INT_FACTOR) % 256 > 9 ∨
        (d + 256 - ASCII_TO_INT_FACTOR) % 256 > 9 then Except.error ()
    else
      simdGo w bs ps
        ((s1 + (a + 256 - ASCII_TO_INT_FACTOR) % 256 * p1 % 2 ^ w) % 2 ^ w,
         (s2 + (b + 256 - ASCII_TO_INT_FACTOR) % 256 * p2 % 2 ^ w) % 2 ^ w,
         (s3 + (c + 256 - ASCII_TO_INT_FACTOR) % 256 * p3 % 2 ^ w) % 2 ^ w,
         (s4 + (d + 256 - ASCII_TO_INT_FACTOR) % 256 * p4 % 2 ^ w) % 2 ^ w)
  | bs, ps, (s1, s2, s3, s4) =>
    scalarTail w bs ps ((s1 + s2 + s3 + s4) % 2 ^ w)

/-- impl FromAsciiSIMD for u32 in src/convert_simd.rs (idx starts at
table_len - len; the caller must guarantee len <= table_len, as for the
scalar convert.rs engine). -/
def u32_bytes_to_int_simd (bytes : List Nat) : Except Unit Nat :=
  simdGo 32 bytes (POW10_U32.drop (POW10_U32.length - bytes.length)) (0, 0, 0, 0)

/-- impl FromAsciiSIMD for u64 in src/convert_simd.rs. -/
def u64_bytes_to_int_simd (bytes : List Nat) : Except Unit Nat :=
  simdGo 64 bytes (POW10_U64.drop (POW10_U64.length - bytes.length)) (0, 0, 0, 0)

/-- The digits10 loop shared by the unsigned digits10 implementations of
src/into_ascii.rs and src/convert.rs: probe 10 / 100 / 1000 / 10000, else
divide by 10000 and add 4 to the running count. -/
def digits10Loop (self : Nat) (result : Nat) : Nat :=
  if self < 10 then result
  else if self < 100 then result + 1
  else if self < 1000 then result + 2
  else if self < 10000 then result + 3
  else digits10Loop (self / 10000) (result + 4)
termination_by self
decreasing_by
  exact Nat.div_lt_self (by omega) (by omega)

/-- Unsigned digits10 (src/into_ascii.rs and src/convert.rs, identical): the
loop starts with result = 1. -/
def digits10 (n : Nat) : Nat := digits10Loop n 1

/-- The u8 specialisation of digits10 (both files). -/
def u8_digits10 (n : Nat) : Nat :=
  if n < 10 then 1 else if n < 100 then 2 else 3

/-- One 4-digit group written by the unrolled formatting loops: the buffer
order [b3, b2, b1, b] receives [r3, r2, r1, r], i.e. the four lowest decimal
digits of self, most significant first, as ASCII. -/
def chunkDigits (self : Nat) : List Nat :=
  [self / 1000 % 10 + ASCII_TO_INT_FACTOR, self / 100 % 10 + ASCII_TO_INT_FACTOR,
   self / 10 % 10 + ASCII_TO_INT_FACTOR, self % 10 + ASCII_TO_INT_FACTOR]

/-- The rchunks_exact_mut(4) phase of int_to_bytes in src/into_ascii.rs: k
full 4-byte chunks are written right to left (so the first chunk produced is
the rightmost); returns the remaining quotient and the chunk region content
(in buffer order). -/
def intToBytesChunkLoop (self : Nat) : Nat → Nat × List Nat
  | 0 => (self, [])
  | k + 1 =>
    let c := chunkDigits self
    let r := intToBytesChunkLoop (self / 10000) k
    (r.1, r.2 ++ c)

/-- The fixup loop shared by int_to_bytes of src/into_ascii.rs (remainder
loop) and src/convert.rs: walk the unwritten buffer prefix right to left,
write self % 10 + 48, stop as soon as the quotient reaches 0.  The argument
list is the REVERSED prefix (so the loop is structural); untouched bytes are
returned unchanged. -/
def fixupRev (self : Nat) : List Nat → List Nat
  | [] => []
  | _b :: bs =>
    let q := self / 10
    let r := self % 10 + ASCII_TO_INT_FACTOR
    if q = 0 then r :: bs
    else r :: fixupRev q bs

/-- int_to_bytes of src/into_ascii.rs (generic unsigned): all full 4-chunks
from the right are overwritten unconditionally, then the remainder (the
leading buff.len() % 4 bytes) is filled right to left by the fixup loop. -/
def int_to_bytes (self : Nat) (buff : List Nat) : List Nat :=
  let rem := buff.length % 4
  let head := buff.take rem
  let r := intToBytesChunkLoop self (buff.length / 4)
  (fixupRev r.1 head.reverse).reverse ++ r.2

/-- The u8 specialisation of int_to_bytes in src/into_ascii.rs: a plain
right-to-left loop whose stop test is self == 0 BEFORE the division step (so
it writes one extra digit compared to the q == 0 test).  Argument is the
reversed buffer. -/
def u8FixupRev (self : Nat) : List Nat → List Nat
  | [] => []
  | _b :: bs =>
    let r := self % 10 + ASCII_TO_INT_FACTOR
    if self = 0 then r :: bs
    else r :: u8FixupRev (self / 10) bs

/-- impl IntoAscii for u8, int_to_bytes, in src/into_ascii.rs. -/
def u8_int_to_bytes (self : Nat) (buff : List Nat) : List Nat :=
  (u8FixupRev self buff.reverse).reverse

/-- The default IntoAscii::itoa of src/into_ascii.rs: allocate digits10(self)
zero bytes and fill them with int_to_bytes. -/
def itoa (n : Nat) : List Nat :=
  int_to_bytes n (List.replicate (digits10 n) 0)

/-- itoa as it resolves for u8 in src/into_ascii.rs. -/
def u8_itoa (n : Nat) : List Nat :=
  u8_int_to_bytes n (List.replicate (u8_digits10 n) 0)

/-- The wrapping absolute value used by the signed digits10 / itoa of both
files: self.abs() (or self * -1) wraps at the minimum value in release
builds. -/
def wrappingAbs (w : Nat) (i : Int) : Int :=
  if i < 0 then sWrap w (-i) else i

/-- signed digits10 of src/into_ascii.rs and src/convert.rs: the (wrapping)
absolute value cast to the unsigned counterpart, then unsigned digits10. -/
def signed_digits10 (w : Nat) (udigits : Nat → Nat) (i : Int) : Nat :=
  udigits (toUnsigned w (wrappingAbs w i))

/-- signed_into_ascii! itoa of src/into_ascii.rs: negative values are negated
(wrapping, self * -1), the size is digit count + 1 for the sign, the buffer
is PRE-FILLED with the minus byte 45 and the magnitude is formatted into it
by the unsigned int_to_bytes. -/
def signed_itoa (w : Nat) (udigits : Nat → Nat)
    (uitb : Nat → List Nat → List Nat) (i : Int) : List Nat :=
  uitb (toUnsigned w (if i < 0 then sWrap w (-i) else i))
    (List.replicate
      (if i < 0 then signed_digits10 w udigits i + 1 else signed_digits10 w udigits i)
      45)

/-- impl IntoAscii for i8 in src/into_ascii.rs. -/
def i8_itoa (i : Int) : List Nat := signed_itoa 8 u8_digits10 u8_int_to_bytes i

/-- impl IntoAscii for i16 in src/into_ascii.rs. -/
def i16_itoa (i : Int) : List Nat := signed_itoa 16 digits10 int_to_bytes i

/-- impl IntoAscii for i32 in src/into_ascii.rs. -/
def i32_itoa (i : Int) : List Nat := signed_itoa 32 digits10 int_to_bytes i

/-- impl IntoAscii for i64 in src/into_ascii.rs. -/
def i64_itoa (i : Int) : List Nat := signed_itoa 64 digits10 int_to_bytes i

/-- The value-driven chunk phase of int_to_bytes in src/convert.rs: while
self >= 10000, write the four lowest digits at the current tail and divide by
10000.  Returns the remaining quotient and the written tail content. -/
def cChunkLoop (self : Nat) : Nat × List Nat :=
  if self ≥ 10000 then
    let c := chunkDigits self
    let r := cChunkLoop (self / 10000)
    (r.1, r.2 ++ c)
  else (self, [])
termination_by self
decreasing_by
  exact Nat.div_lt_self (by omega) (by omega)

/-- int_to_bytes of src/convert.rs (generic unsigned): the value-driven chunk
loop writes at the tail, then the fixup loop fills buff[..len] right to left,
returning as soon as the quotient is 0 and leaving the leading bytes
untouched.  The source indexes without bounds checks, so the caller must
guarantee buff.len() >= digits10(self). -/
def c_int_to_bytes (self : Nat) (buff : List Nat) : List Nat :=
  let r := cChunkLoop self
  let len := buff.length - r.2.length
  (fixupRev r.1 (buff.take len).reverse).reverse ++ r.2

/-- impl IntoAscii for u8, int_to_bytes, in src/convert.rs: same loop shape
as the fixup loop (the stop test is on the quotient, after self = q). -/
def c_u8_int_to_bytes (self : Nat) (buff : List Nat) : List Nat :=
  (fixupRev self buff.reverse).reverse

/-- impl_signed_conversions! itoa of src/convert.rs: negative values get a
buffer of zeros of size digit count + 1, position 0 is set to the minus byte
45, and the (wrapped) magnitude is formatted by the unsigned
int_to_bytes. -/
def c_signed_itoa (w : Nat) (udigits : Nat → Nat)
    (uitb : Nat → List Nat → List Nat) (i : Int) : List Nat :=
  if i < 0 then
    uitb (toUnsigned w (sWrap w (-i)))
      ((List.replicate (signed_digits10 w udigits (sWrap w (-i)) + 1) 0).set 0 45)
  else
    uitb (toUnsigned w i) (List.replicate (signed_digits10 w udigits i) 0)

/-- impl IntoAscii for i8 in src/convert.rs. -/
def c_i8_itoa (i : Int) : List Nat := c_signed_itoa 8 u8_digits10 c_u8_int_to_bytes i

/-- impl IntoAscii for i16 in src/convert.rs. -/
def c_i16_itoa (i : Int) : List Nat := c_signed_itoa 16 digits10 c_int_to_bytes i

/-- impl IntoAscii for i32 in src/convert.rs. -/
def c_i32_itoa (i : Int) : List Nat := c_signed_itoa 32 digits10 c_int_to_bytes i

/-- impl IntoAscii for i64 in src/convert.rs. -/
def c_i64_itoa (i : Int) : List Nat := c_signed_itoa 64 digits10 c_int_to_bytes i

/-- Specification helper: the descending power-of-ten table of length n,
10 ^ (n-1) down to 1. -/
def pow10Table : Nat → List Nat
  | 0 => []
  | n + 1 => 10 ^ n :: pow10Table n

/-- Specification helper: the len lowest decimal digits of n as ASCII bytes,
most significant first (zero padded to exactly len bytes). -/
def padDigits (n : Nat) : Nat → List Nat
  | 0 => []
  | l + 1 => (n / 10 ^ l % 10 + ASCII_TO_INT_FACTOR) :: padDigits n l

/-- Specification helper: a byte list consists of ASCII decimal digits. -/
def allDigits (bs : List Nat) : Prop := ∀ b ∈ bs, 48 ≤ b ∧ b ≤ 57

instance (bs : List Nat) : Decidable (allDigits bs) := by
  unfold allDigits
  infer_instance

/-- Specification helper: the decimal value denoted by a list of ASCII digit
bytes (most significant first). -/
def decimalOf : List Nat → Nat
  | [] => 0
  | b :: bs => (b - 48) * 10 ^ bs.length + decimalOf bs

/-- Specification helper: the positional sum of digit values times the
corresponding table entries. -/
def weightedSum : List Nat → List Nat → Nat
  | b :: bs, p :: ps => (b - 48) * p + weightedSum bs ps
  | _, _ => 0

/-! ### Basic facts about the digit decoder and the accumulation loops -/

theorem parse_byte_digit (w b p : Nat) (h1 : 48 ≤ b) (h2 : b ≤ 57) :
    parse_byte w b p = Except.ok ((b - 48) * p % 2 ^ w) := by
  have hd : (b + 256 - ASCII_TO_INT_FACTOR) % 256 = b - 48 := by
    unfold ASCII_TO_INT_FACTOR
    omega
  unfold parse_byte
  rw [hd]
  rw [if_neg (by omega)]

theorem parse_byte_bad (w b p : Nat) (h1 : ¬(48 ≤ b ∧ b ≤ 57)) (h2 : b < 256) :
    parse_byte w b p = Except.error (ParseIntErr.InvalidDigit b) := by
  unfold parse_byte ASCII_TO_INT_FACTOR
  rw [if_pos (by omega)]
  congr 1
  congr 1
  omega

theorem mod_add_mod2 (M x y z : Nat) : (x % M + y + z) % M = (x + y + z) % M := by
  rw [Nat.add_assoc, Nat.mod_add_mod, Nat.add_assoc]

theorem addMod3 (M a x y : Nat) :
    ((a + x % M) % M + y) % M = (a + x + y) % M := by
  calc ((a + x % M) % M + y) % M = (a + x % M + y) % M := by rw [Nat.mod_add_mod]
    _ = (a + y + x % M) % M := by ring_nf
    _ = (a + y + x) % M := by rw [Nat.add_mod_mod]
    _ = (a + x + y) % M := by ring_nf

theorem parseLoop_ok (w : Nat) :
    ∀ (bs ps : List Nat) (acc : Nat), allDigits bs → acc < 2 ^ w →
      parseLoop w bs ps acc = Except.ok ((acc + weightedSum bs ps) % 2 ^ w)
  | [], ps, acc, _, hacc => by
    cases ps <;>
      simp [parseLoop, weightedSum, Nat.mod_eq_of_lt hacc]
  | b :: bs, [], acc, _, hacc => by
    simp [parseLoop, weightedSum, Nat.mod_eq_of_lt hacc]
  | b :: bs, p :: ps, acc, hdig, hacc => by
    have hb := hdig b (by simp)
    have hrest : allDigits bs := fun x hx => hdig x (by simp [hx])
    rw [parseLoop, parse_byte_digit w b p hb.1 hb.2]
    dsimp only
    rw [parseLoop_ok w bs ps _ hrest (Nat.mod_lt _ (Nat.pos_pow_of_pos w (by omega)))]
    rw [weightedSum, addMod3, Nat.add_assoc]

theorem parseLoop_firstBad (w : Nat) :
    ∀ (good ps : List Nat) (bad : Nat) (rest : List Nat) (acc : Nat),
      allDigits good → ¬(48 ≤ bad ∧ bad ≤ 57) → bad < 256 →
      good.length < ps.length →
      parseLoop w (good ++ bad :: rest) ps acc =
        Except.error (ParseIntErr.InvalidDigit bad)
  | [], ps, bad, rest, acc, _, hbad, hlt, hlen => by
    cases ps with
    | nil => simp at hlen
    | cons p ps =>
      rw [List.nil_append, parseLoop, parse_byte_bad w bad p hbad hlt]
  | g :: gs, ps, bad, rest, acc, hdig, hbad, hlt, hlen => by
    cases ps with
    | nil => simp at hlen
    | cons p ps =>
      have hg := hdig g (by simp)
      rw [List.cons_append, parseLoop, parse_byte_digit w g p hg.1 hg.2]
      dsimp only
      exact parseLoop_firstBad w gs ps bad rest _
        (fun x hx => hdig x (by simp [hx])) hbad hlt (by simpa using hlen)

theorem bytesToIntCore_eq_parseLoop (w : Nat) :
    ∀ (bs ps : List Nat) (acc : Nat),
      bytesToIntCore w bs ps acc = parseLoop w bs ps acc := by
  intro bs ps acc
  induction bs, ps, acc using bytesToIntCore.induct w with
  | case1 a b c d bs p1 p2 p3 p4 ps acc e h1 =>
    rw [bytesToIntCore, h1, parseLoop, h1]
  | case2 a b c d bs p1 p2 p3 p4 ps acc r1 h1 e h2 =>
    rw [bytesToIntCore, h1, h2, parseLoop, h1]
    dsimp only
    rw [parseLoop, h2]
  | case3 a b c d bs p1 p2 p3 p4 ps acc r1 h1 r2 h2 e h3 =>
    rw [bytesToIntCore, h1, h2, h3, parseLoop, h1]
    dsimp only
    rw [parseLoop, h2]
    dsimp only
    rw [parseLoop, h3]
  | case4 a b c d bs p1 p2 p3 p4 ps acc r1 h1 r2 h2 r3 h3 e h4 =>
    rw [bytesToIntCore, h1, h2, h3, h4, parseLoop, h1]
    dsimp only
    rw [parseLoop, h2]
    dsimp only
    rw [parseLoop, h3]
    dsimp only
    rw [parseLoop, h4]
  | case5 a b c d bs p1 p2 p3 p4 ps acc r1 h1 r2 h2 r3 h3 r4 h4 ih =>
    rw [bytesToIntCore, h1, h2, h3, h4, parseLoop, h1]
    dsimp only
    rw [parseLoop, h2]
    dsimp only
    rw [parseLoop, h3]
    dsimp only
    rw [parseLoop, h4]
    dsimp only
    rw [ih]
    congr 1
    calc (acc + (r1 + r2 + r3 + r4) % 2 ^ w) % 2 ^ w
        = (acc + (r1 + r2 + r3 + r4)) % 2 ^ w := by rw [Nat.add_mod_mod]
      _ = (((((acc + r1) % 2 ^ w + r2) % 2 ^ w + r3) % 2 ^ w + r4)) % 2 ^ w := by
          rw [Nat.mod_add_mod, Nat.mod_add_mod, mod_add_mod2]
          ring_nf
  | case6 bs ps acc h =>
    rw [bytesToIntCore.eq_def]
    split
    · rename_i a b c d bs1 p1 p2 p3 p4 ps1
      exact absurd rfl (h a b c d bs1 p1 p2 p3 p4 ps1 rfl)
    · rfl

/-! ### The power-of-ten tables -/

theorem pow10_U8_eq : POW10_U8 = pow10Table 3 := by decide

theorem pow10_U16_eq : POW10_U16 = pow10Table 5 := by decide

theorem pow10_U32_eq : POW10_U32 = pow10Table 10 := by decide

theorem pow10_U64_eq : POW10_U64 = pow10Table 20 := by decide

theorem pow10Table_length : ∀ n, (pow10Table n).length = n
  | 0 => rfl
  | n + 1 => by simp [pow10Table, pow10Table_length n]

theorem pow10Table_drop : ∀ N L, L ≤ N → (pow10Table N).drop (N - L) = pow10Table L
  | 0, 0, _ => rfl
  | N + 1, L, h => by
    rcases Nat.eq_or_lt_of_le h with heq | hlt
    · subst heq
      simp
    · have h1 : N + 1 - L = (N - L) + 1 := by omega
      rw [pow10Table, h1, List.drop_succ_cons]
      exact pow10Table_drop N L (by omega)

/-! ### padDigits, decimalOf and weightedSum -/

theorem padDigits_length (n : Nat) : ∀ L, (padDigits n L).length = L
  | 0 => rfl
  | L + 1 => by simp [padDigits, padDigits_length n L]

theorem padDigits_allDigits (n : Nat) : ∀ L, allDigits (padDigits n L)
  | 0 => by intro b hb; simp [padDigits] at hb
  | L + 1 => by
    intro b hb
    rw [padDigits] at hb
    rcases List.mem_cons.1 hb with h | h
    · subst h
      unfold ASCII_TO_INT_FACTOR
      have := Nat.mod_lt (n / 10 ^ L) (show 0 < 10 by omega)
      omega
    · exact padDigits_allDigits n L b h

theorem padDigits_append (n : Nat) : ∀ i j,
    padDigits (n / 10 ^ j) i ++ padDigits n j = padDigits n (i + j)
  | 0, j => by simp [padDigits]
  | i + 1, j => by
    rw [padDigits, List.cons_append, padDigits_append n i j]
    have h : n / 10 ^ j / 10 ^ i = n / 10 ^ (i + j) := by
      rw [Nat.div_div_eq_div_mul, ← pow_add]
      ring_nf
    rw [show i + 1 + j = (i + j) + 1 by omega, padDigits, h]

theorem padDigits_snoc (n m : Nat) :
    padDigits n (m + 1) = padDigits (n / 10) m ++ [n % 10 + 48] := by
  have h := padDigits_append n m 1
  rw [pow_one] at h
  rw [← h]
  congr 1
  unfold padDigits padDigits ASCII_TO_INT_FACTOR
  norm_num

theorem weightedSum_pow10 : ∀ bs : List Nat,
    weightedSum bs (pow10Table bs.length) = decimalOf bs
  | [] => rfl
  | b :: bs => by
    rw [decimalOf, List.length_cons, pow10Table, weightedSum, weightedSum_pow10 bs]

theorem decimalOf_padDigits (n : Nat) : ∀ L, decimalOf (padDigits n L) = n % 10 ^ L
  | 0 => by simp [padDigits, decimalOf, Nat.mod_one]
  | L + 1 => by
    rw [padDigits, decimalOf, decimalOf_padDigits n L, padDigits_length]
    unfold ASCII_TO_INT_FACTOR
    rw [Nat.add_sub_cancel, pow_succ, Nat.mod_mul]
    ring

/-! ### Characterisation of the checked unsigned parse engines -/

theorem bytes_to_int_overflow (w : Nat) (table bytes : List Nat)
    (h : bytes.length > table.length) :
    bytes_to_int w table bytes = Except.error ParseIntErr.Overflow := by
  rw [bytes_to_int, if_pos h]

theorem bytes_to_int_allDigits (w N : Nat) (table bytes : List Nat)
    (htab : table = pow10Table N) (hdig : allDigits bytes)
    (hlen : bytes.length ≤ N) :
    bytes_to_int w table bytes = Except.ok (decimalOf bytes % 2 ^ w) := by
  subst htab
  rw [bytes_to_int, if_neg (by rw [pow10Table_length]; omega), pow10Table_length,
    pow10Table_drop N bytes.length hlen, bytesToIntCore_eq_parseLoop,
    parseLoop_ok w bytes _ 0 hdig (Nat.pos_pow_of_pos w (by omega)),
    weightedSum_pow10, Nat.zero_add]

theorem bytes_to_int_firstBad (w N : Nat) (table : List Nat) (good : List Nat)
    (bad : Nat) (rest : List Nat) (htab : table = pow10Table N)
    (hgood : allDigits good) (hbad : ¬(48 ≤ bad ∧ bad ≤ 57)) (hb : bad < 256)
    (hlen : good.length + 1 + rest.length ≤ N) :
    bytes_to_int w table (good ++ bad :: rest) =
      Except.error (ParseIntErr.InvalidDigit bad) := by
  subst htab
  have hl : (good ++ bad :: rest).length = good.length + 1 + rest.length := by
    simp
    omega
  rw [bytes_to_int, if_neg (by rw [pow10Table_length, hl]; omega), pow10Table_length,
    pow10Table_drop N _ (by omega), bytesToIntCore_eq_parseLoop,
    parseLoop_firstBad w good _ bad rest 0 hgood hbad hb
      (by rw [pow10Table_length, hl]; omega)]

theorem u8_bytes_to_int_allDigits (bytes : List Nat) (hdig : allDigits bytes)
    (hlen : bytes.length ≤ 3) :
    u8_bytes_to_int bytes = Except.ok (decimalOf bytes % 2 ^ 8) := by
  rw [u8_bytes_to_int, pow10_U8_eq,
    if_neg (by rw [pow10Table_length]; omega), pow10Table_length,
    pow10Table_drop 3 bytes.length hlen,
    parseLoop_ok 8 bytes _ 0 hdig (by norm_num),
    weightedSum_pow10, Nat.zero_add]

theorem u8_bytes_to_int_firstBad (good : List Nat) (bad : Nat) (rest : List Nat)
    (hgood : allDigits good) (hbad : ¬(48 ≤ bad ∧ bad ≤ 57)) (hb : bad < 256)
    (hlen : good.length + 1 + rest.length ≤ 3) :
    u8_bytes_to_int (good ++ bad :: rest) =
      Except.error (ParseIntErr.InvalidDigit bad) := by
  have hl : (good ++ bad :: rest).length = good.length + 1 + rest.length := by
    simp
    omega
  rw [u8_bytes_to_int, pow10_U8_eq, if_neg (by rw [pow10Table_length, hl]; omega),
    pow10Table_length, pow10Table_drop 3 _ (by omega),
    parseLoop_firstBad 8 good _ bad rest 0 hgood hbad hb
      (by rw [pow10Table_length, hl]; omega)]

/-! ### Claim C4: length gate -/

/-- C4: for every input whose length exceeds the width's power-of-ten table
length N (3 for u8, 5 for u16, 10 for u32, 20 for u64), the checked parse of
src/from_ascii.rs returns the Overflow error (in particular without any
accumulation having taken place). -/
theorem overflow_length_gate (bytes : List Nat) :
    (3 < bytes.length → u8_bytes_to_int bytes = Except.error ParseIntErr.Overflow) ∧
    (5 < bytes.length → u16_bytes_to_int bytes = Except.error ParseIntErr.Overflow) ∧
    (10 < bytes.length → u32_bytes_to_int bytes = Except.error ParseIntErr.Overflow) ∧
    (20 < bytes.length → u64_bytes_to_int bytes = Except.error ParseIntErr.Overflow) := by
  refine ⟨fun h => ?_, fun h => ?_, fun h => ?_, fun h => ?_⟩
  · rw [u8_bytes_to_int, if_pos (by simpa [POW10_U8] using h)]
  · exact bytes_to_int_overflow 16 POW10_U16 bytes (by simpa [POW10_U16] using h)
  · exact bytes_to_int_overflow 32 POW10_U32 bytes (by simpa [POW10_U32] using h)
  · exact bytes_to_int_overflow 64 POW10_U64 bytes (by simpa [POW10_U64] using h)

/-- C4 witness: parsing "1000" (4 bytes) as u8 yields Overflow. -/
theorem overflow_length_gate_witness :
    u8_bytes_to_int [49, 48, 48, 48] = Except.error ParseIntErr.Overflow :=
  (overflow_length_gate [49, 48, 48, 48]).1 (by decide)

/-! ### Claim C5: first invalid digit -/

/-- C5: for every input within the table-length bound that contains a
non-digit byte, the checked parse of src/from_ascii.rs fails with
InvalidDigit carrying exactly the original offending byte, the first
non-digit in left-to-right order (good is the all-digit prefix, bad the
first offending byte). -/
theorem invalid_digit_first (good : List Nat) (bad : Nat) (rest : List Nat)
    (hgood : allDigits good) (hbad : ¬(48 ≤ bad ∧ bad ≤ 57)) (hb : bad < 256) :
    (good.length + 1 + rest.length ≤ 3 →
      u8_bytes_to_int (good ++ bad :: rest) =
        Except.error (ParseIntErr.InvalidDigit bad)) ∧
    (good.length + 1 + rest.length ≤ 5 →
      u16_bytes_to_int (good ++ bad :: rest) =
        Except.error (ParseIntErr.InvalidDigit bad)) ∧
    (good.length + 1 + rest.length ≤ 10 →
      u32_bytes_to_int (good ++ bad :: rest) =
        Except.error (ParseIntErr.InvalidDigit bad)) ∧
    (good.length + 1 + rest.length ≤ 20 →
      u64_bytes_to_int (good ++ bad :: rest) =
        Except.error (ParseIntErr.InvalidDigit bad)) := by
  refine ⟨fun h => ?_, fun h => ?_, fun h => ?_, fun h => ?_⟩
  · exact u8_bytes_to_int_firstBad good bad rest hgood hbad hb h
  · exact bytes_to_int_firstBad 16 5 POW10_U16 good bad rest pow10_U16_eq hgood hbad hb h
  · exact bytes_to_int_firstBad 32 10 POW10_U32 good bad rest pow10_U32_eq hgood hbad hb h
  · exact bytes_to_int_firstBad 64 20 POW10_U64 good bad rest pow10_U64_eq hgood hbad hb h

/-- C5 witness: parsing "!23" as u8 yields InvalidDigit with the original
byte 33, the ASCII exclamation mark. -/
theorem invalid_digit_first_witness :
    u8_bytes_to_int [33, 50, 51] = Except.error (ParseIntErr.InvalidDigit 33) :=
  (invalid_digit_first [] 33 [50, 51] (by decide) (by decide) (by decide)).1 (by decide)

/-! ### Claim C6: wrapping accumulation modulo 2 ^ width -/

/-- C6: every all-digit input of length at most the table length parses to
the represented decimal value reduced modulo 2 ^ width (all accumulation in
the engine wraps). -/
theorem wrapping_parse_mod (bytes : List Nat) (hdig : allDigits bytes) :
    (bytes.length ≤ 3 → u8_bytes_to_int bytes = Except.ok (decimalOf bytes % 2 ^ 8)) ∧
    (bytes.length ≤ 5 → u16_bytes_to_int bytes = Except.ok (decimalOf bytes % 2 ^ 16)) ∧
    (bytes.length ≤ 10 → u32_bytes_to_int bytes = Except.ok (decimalOf bytes % 2 ^ 32)) ∧
    (bytes.length ≤ 20 → u64_bytes_to_int bytes = Except.ok (decimalOf bytes % 2 ^ 64)) := by
  refine ⟨fun h => ?_, fun h => ?_, fun h => ?_, fun h => ?_⟩
  · exact u8_bytes_to_int_allDigits bytes hdig h
  · exact bytes_to_int_allDigits 16 5 POW10_U16 bytes pow10_U16_eq hdig h
  · exact bytes_to_int_allDigits 32 10 POW10_U32 bytes pow10_U32_eq hdig h
  · exact bytes_to_int_allDigits 64 20 POW10_U64 bytes pow10_U64_eq hdig h

/-- C6 witness: parsing "257" as u8 yields Ok 1 (257 mod 256). -/
theorem wrapping_parse_mod_witness :
    u8_bytes_to_int [50, 53, 55] = Except.ok 1 :=
  ((wrapping_parse_mod [50, 53, 55] (by decide)).1 (by decide)).trans (by decide)

/-! ### Claim C10: a lone minus sign parses to zero -/

/-- C10: for every signed width, parsing the one-byte input "-" succeeds
with Ok 0: the sign adapter strips the minus, the unsigned engine maps the
empty remainder to 0, and wrapping negation of 0 is 0. -/
theorem minus_only_parses_to_zero :
    i8_bytes_to_int [45] = Except.ok 0 ∧
    i16_bytes_to_int [45] = Except.ok 0 ∧
    i32_bytes_to_int [45] = Except.ok 0 ∧
    i64_bytes_to_int [45] = Except.ok 0 := by
  refine ⟨?_, ?_, ?_, ?_⟩ <;> rfl

/-! ### Claim C1: the SIMD engine refines the scalar convert.rs engine -/

theorem mod_sum4_key (M a b c d : Nat) :
    (a % M + b % M + c % M + d % M) % M = (a + b + c + d) % M :=
  (((Nat.mod_modEq a M).add (Nat.mod_modEq b M)).add (Nat.mod_modEq c M)).add
    (Nat.mod_modEq d M)

theorem mod_sum2_key (M a b : Nat) : (a % M + b % M) % M = (a + b) % M :=
  (Nat.mod_modEq a M).add (Nat.mod_modEq b M)

theorem convertCore_err4 (w a b c d : Nat) (bs : List Nat) (p1 p2 p3 p4 : Nat)
    (ps : List Nat) (acc : Nat)
    (h : (a + 256 - ASCII_TO_INT_FACTOR) % 256 > 9 ∨
      (b + 256 - ASCII_TO_INT_FACTOR) % 256 > 9 ∨
      (c + 256 - ASCII_TO_INT_FACTOR) % 256 > 9 ∨
      (d + 256 - ASCII_TO_INT_FACTOR) % 256 > 9) :
    convertCore w (a :: b :: c :: d :: bs) (p1 :: p2 :: p3 :: p4 :: ps) acc =
      Except.error () := by
  rw [convertCore]
  by_cases h1 : (a + 256 - ASCII_TO_INT_FACTOR) % 256 > 9
  · rw [if_pos h1]
  · rw [if_neg h1]
    by_cases h2 : (b + 256 - ASCII_TO_INT_FACTOR) % 256 > 9
    · rw [if_pos h2]
    · rw [if_neg h2]
      by_cases h3 : (c + 256 - ASCII_TO_INT_FACTOR) % 256 > 9
      · rw [if_pos h3]
      · rw [if_neg h3]
        rw [if_pos (by tauto)]

theorem simdGo_eq_convertCore (w : Nat) :
    ∀ (bs ps : List Nat) (s : Nat × Nat × Nat × Nat), bs.length = ps.length →
      simdGo w bs ps s =
        convertCore w bs ps ((s.1 + s.2.1 + s.2.2.1 + s.2.2.2) % 2 ^ w) := by
  intro bs ps s
  induction bs, ps, s using simdGo.induct w with
  | case1 a b c d bs p1 p2 p3 p4 ps s1 s2 s3 s4 h =>
    intro _
    rw [convertCore_err4 w a b c d bs p1 p2 p3 p4 ps _ h, simdGo, if_pos h]
  | case2 a b c d bs p1 p2 p3 p4 ps s1 s2 s3 s4 h ih =>
    intro hlen
    have hlen2 : bs.length = ps.length := by
      simp only [List.length_cons] at hlen
      omega
    have h1 : ¬(a + 256 - ASCII_TO_INT_FACTOR) % 256 > 9 := fun hh => h (Or.inl hh)
    have h2 : ¬(b + 256 - ASCII_TO_INT_FACTOR) % 256 > 9 :=
      fun hh => h (Or.inr (Or.inl hh))
    have h3 : ¬(c + 256 - ASCII_TO_INT_FACTOR) % 256 > 9 :=
      fun hh => h (Or.inr (Or.inr (Or.inl hh)))
    have h4 : ¬(d + 256 - ASCII_TO_INT_FACTOR) % 256 > 9 :=
      fun hh => h (Or.inr (Or.inr (Or.inr hh)))
    rw [simdGo, if_neg h, ih hlen2, convertCore, if_neg h1, if_neg h2, if_neg h3,
      if_neg h4]
    congr 1
    rw [mod_sum4_key, mod_sum2_key]
    ring_nf
  | case3 bs ps s1 s2 s3 s4 h =>
    intro hlen
    rcases bs with _ | ⟨a, _ | ⟨b, _ | ⟨c, _ | ⟨d, tl⟩⟩⟩⟩ <;>
      rcases ps with _ | ⟨p1, _ | ⟨p2, _ | ⟨p3, _ | ⟨p4, tp⟩⟩⟩⟩ <;>
        first
          | rfl
          | (exact (h _ _ _ _ _ _ _ _ _ _ rfl rfl).elim)

/-- C1: the vectorised parse engine of src/convert_simd.rs returns exactly
the same Result as the scalar engine of src/convert.rs for every u32 / u64
input: the same value on success, an error exactly when the scalar engine
errors.  The hypothesis bytes.length <= table length is the precondition
both engines share (both compute the table offset table_len - len with
unchecked accesses, so longer inputs are undefined behaviour in the source
for both). -/
theorem simd_equiv_scalar (bytes : List Nat) :
    (bytes.length ≤ 10 → u32_bytes_to_int_simd bytes = u32_bytes_to_int_c bytes) ∧
    (bytes.length ≤ 20 → u64_bytes_to_int_simd bytes = u64_bytes_to_int_c bytes) := by
  constructor
  · intro h
    rw [u32_bytes_to_int_simd, u32_bytes_to_int_c]
    have hlen : bytes.length = (POW10_U32.drop (POW10_U32.length - bytes.length)).length := by
      rw [List.length_drop]
      simp only [POW10_U32, List.length_cons, List.length_nil] at h ⊢
      omega
    have := simdGo_eq_convertCore 32 bytes
      (POW10_U32.drop (POW10_U32.length - bytes.length)) (0, 0, 0, 0) hlen
    simpa using this
  · intro h
    rw [u64_bytes_to_int_simd, u64_bytes_to_int_c]
    have hlen : bytes.length = (POW10_U64.drop (POW10_U64.length - bytes.length)).length := by
      rw [List.length_drop]
      simp only [POW10_U64, List.length_cons, List.length_nil] at h ⊢
      omega
    have := simdGo_eq_convertCore 64 bytes
      (POW10_U64.drop (POW10_U64.length - bytes.length)) (0, 0, 0, 0) hlen
    simpa using this

/-- C1 witness: both engines agree on the concrete input "123" for u32. -/
theorem simd_equiv_scalar_witness :
    u32_bytes_to_int_simd [49, 50, 51] = u32_bytes_to_int_c [49, 50, 51] :=
  (simd_equiv_scalar [49, 50, 51]).1 (by decide)

/-! ### digits10 and the decimal length of a number -/

theorem digits10Loop_eq (self : Nat) : ∀ r : Nat,
    digits10Loop self r = r + Nat.log 10 self := by
  induction self using Nat.strong_induction_on with
  | _ self ih =>
    intro r
    rw [digits10Loop]
    by_cases c1 : self < 10
    · rw [if_pos c1, Nat.log_eq_zero_iff.2 (Or.inl c1)]
      omega
    · rw [if_neg c1]
      by_cases c2 : self < 100
      · have hlog : Nat.log 10 self = 1 :=
          Nat.log_eq_of_pow_le_of_lt_pow (show 10 ^ 1 ≤ self by norm_num; omega)
            (show self < 10 ^ (1 + 1) by norm_num; omega)
        rw [if_pos c2, hlog]
      · rw [if_neg c2]
        by_cases c3 : self < 1000
        · have hlog : Nat.log 10 self = 2 :=
            Nat.log_eq_of_pow_le_of_lt_pow (show 10 ^ 2 ≤ self by norm_num; omega)
              (show self < 10 ^ (2 + 1) by norm_num; omega)
          rw [if_pos c3, hlog]
        · rw [if_neg c3]
          by_cases c4 : self < 10000
          · have hlog : Nat.log 10 self = 3 :=
              Nat.log_eq_of_pow_le_of_lt_pow (show 10 ^ 3 ≤ self by norm_num; omega)
                (show self < 10 ^ (3 + 1) by norm_num; omega)
            rw [if_pos c4, hlog]
          · rw [if_neg c4]
            rw [ih (self / 10000) (Nat.div_lt_self (by omega) (by omega))]
            have e1 : self / 10 / 10 / 10 / 10 = self / 10000 := by
              rw [Nat.div_div_eq_div_mul, Nat.div_div_eq_div_mul,
                Nat.div_div_eq_div_mul]
            have e2 : Nat.log 10 (self / 10000) = Nat.log 10 self - 4 := by
              rw [← e1, Nat.log_div_base, Nat.log_div_base, Nat.log_div_base,
                Nat.log_div_base]
              omega
            have e3 : 4 ≤ Nat.log 10 self := by
              have h4 : 10 ^ 4 ≤ self := by norm_num; omega
              exact (Nat.pow_le_iff_le_log (by norm_num) (by omega)).1 h4
            omega

theorem digits10_eq_log (n : Nat) : digits10 n = Nat.log 10 n + 1 := by
  rw [digits10, digits10Loop_eq]
  omega

theorem digits10_pos (n : Nat) : 0 < digits10 n := by
  rw [digits10_eq_log]
  omega

theorem digits10_lt_pow (n : Nat) : n < 10 ^ digits10 n := by
  rw [digits10_eq_log]
  exact Nat.lt_pow_succ_log_self (by norm_num) n

theorem digits10_le (n L : Nat) (hL : 0 < L) (h : n < 10 ^ L) : digits10 n ≤ L := by
  rw [digits10_eq_log]
  rcases Nat.eq_zero_or_pos n with h0 | h0
  · subst h0
    simp [Nat.log_zero_right]
    omega
  · have := Nat.log_lt_of_lt_pow (by omega : n ≠ 0) h
    omega

theorem digits10_lt10 (n : Nat) (h : n < 10) : digits10 n = 1 := by
  rw [digits10_eq_log, Nat.log_eq_zero_iff.2 (Or.inl h)]

theorem digits10_ge10 (n : Nat) (h : 10 ≤ n) :
    digits10 n = digits10 (n / 10) + 1 := by
  rw [digits10_eq_log, digits10_eq_log, Nat.log_div_base]
  have : 1 ≤ Nat.log 10 n :=
    (Nat.pow_le_iff_le_log (by norm_num) (by omega)).1 (by simpa using h)
  omega

theorem log_div_pow (n : Nat) : ∀ m, Nat.log 10 (n / 10 ^ m) = Nat.log 10 n - m
  | 0 => by simp
  | m + 1 => by
    have e : n / 10 ^ (m + 1) = n / 10 ^ m / 10 := by
      rw [Nat.div_div_eq_div_mul, pow_succ]
    rw [e, Nat.log_div_base, log_div_pow n m]
    omega

theorem digits10_div_pow (n m : Nat) (h : m ≤ Nat.log 10 n) :
    digits10 (n / 10 ^ m) = digits10 n - m := by
  rw [digits10_eq_log, digits10_eq_log, log_div_pow]
  omega

theorem u8_digits10_eq (n : Nat) (h : n < 1000) : u8_digits10 n = digits10 n := by
  unfold u8_digits10
  by_cases c1 : n < 10
  · rw [if_pos c1, digits10_lt10 n c1]
  · rw [if_neg c1]
    by_cases c2 : n < 100
    · have hlog : Nat.log 10 n = 1 :=
        Nat.log_eq_of_pow_le_of_lt_pow (show 10 ^ 1 ≤ n by norm_num; omega)
          (show n < 10 ^ (1 + 1) by norm_num; omega)
      rw [if_pos c2, digits10_eq_log, hlog]
    · have hlog : Nat.log 10 n = 2 :=
        Nat.log_eq_of_pow_le_of_lt_pow (show 10 ^ 2 ≤ n by norm_num; omega)
          (show n < 10 ^ (2 + 1) by norm_num; omega)
      rw [if_neg c2, digits10_eq_log, hlog]

/-! ### The fixup loop and the chunk loops of the formatters -/

theorem chunkDigits_eq (self : Nat) : chunkDigits self = padDigits self 4 := by
  simp [chunkDigits, padDigits, ASCII_TO_INT_FACTOR]

theorem fixupRev_spec : ∀ (lst : List Nat) (self : Nat),
    digits10 self ≤ lst.length →
    fixupRev self lst =
      (padDigits self (digits10 self)).reverse ++ lst.drop (digits10 self)
  | [], self, h => by
    have := digits10_pos self
    simp at h
    omega
  | b :: bs, self, h => by
    by_cases hs : self < 10
    · have hD : digits10 self = 1 := digits10_lt10 self hs
      rw [fixupRev, if_pos (Nat.div_eq_of_lt hs), hD]
      simp [padDigits]
    · have hD : digits10 self = digits10 (self / 10) + 1 := digits10_ge10 self (by omega)
      have hq : self / 10 ≠ 0 := by
        have : 1 ≤ self / 10 := (Nat.le_div_iff_mul_le (by omega)).2 (by omega)
        omega
      rw [fixupRev, if_neg hq,
        fixupRev_spec bs (self / 10) (by rw [List.length_cons] at h; omega)]
      rw [hD, padDigits_snoc, List.drop_succ_cons, List.reverse_append]
      simp [ASCII_TO_INT_FACTOR]

theorem intToBytesChunkLoop_eq (self : Nat) : ∀ k,
    intToBytesChunkLoop self k = (self / 10 ^ (4 * k), padDigits self (4 * k))
  | 0 => by simp [intToBytesChunkLoop, padDigits]
  | k + 1 => by
    rw [intToBytesChunkLoop, intToBytesChunkLoop_eq (self / 10000) k]
    have e1 : self / 10000 / 10 ^ (4 * k) = self / 10 ^ (4 * (k + 1)) := by
      rw [Nat.div_div_eq_div_mul,
        show (10000 : Nat) * 10 ^ (4 * k) = 10 ^ (4 * (k + 1)) from by
          rw [show (10000 : Nat) = 10 ^ 4 from by norm_num, ← pow_add,
            show 4 + 4 * k = 4 * (k + 1) from by ring]]
    have e2 : padDigits (self / 10000) (4 * k) ++ chunkDigits self =
        padDigits self (4 * (k + 1)) := by
      rw [chunkDigits_eq, show (10000 : Nat) = 10 ^ 4 by norm_num,
        padDigits_append self (4 * k) 4]
      ring_nf
    rw [← e1, ← e2]

theorem cChunkLoop_spec (self : Nat) :
    ∃ j, cChunkLoop self = (self / 10 ^ (4 * j), padDigits self (4 * j)) ∧
      self / 10 ^ (4 * j) < 10000 ∧ (j = 0 ∨ 10 ^ (4 * j) ≤ self) := by
  induction self using Nat.strong_induction_on with
  | _ self ih =>
    by_cases hs : self ≥ 10000
    · obtain ⟨j, hj1, hj2, hj3⟩ := ih (self / 10000) (Nat.div_lt_self (by omega) (by omega))
      have e1 : self / 10000 / 10 ^ (4 * j) = self / 10 ^ (4 * (j + 1)) := by
        rw [Nat.div_div_eq_div_mul,
          show (10000 : Nat) * 10 ^ (4 * j) = 10 ^ (4 * (j + 1)) from by
            rw [show (10000 : Nat) = 10 ^ 4 from by norm_num, ← pow_add,
              show 4 + 4 * j = 4 * (j + 1) from by ring]]
      refine ⟨j + 1, ?_, ?_, ?_⟩
      · rw [cChunkLoop, if_pos hs, hj1]
        have e2 : padDigits (self / 10000) (4 * j) ++ chunkDigits self =
            padDigits self (4 * (j + 1)) := by
          rw [chunkDigits_eq, show (10000 : Nat) = 10 ^ 4 by norm_num,
            padDigits_append self (4 * j) 4]
          ring_nf
        rw [← e1, ← e2]
      · rw [← e1]
        exact hj2
      · right
        rcases hj3 with h0 | hge
        · subst h0
          norm_num
          omega
        · have : 10 ^ (4 * j) * 10000 ≤ self :=
            (Nat.le_div_iff_mul_le (by omega)).1 hge
          calc 10 ^ (4 * (j + 1)) = 10 ^ (4 * j) * 10 ^ 4 := by ring
            _ = 10 ^ (4 * j) * 10000 := by norm_num
            _ ≤ self := this
    · exact ⟨0, by rw [cChunkLoop, if_neg hs]; simp [padDigits], by simpa using hs,
        Or.inl rfl⟩

/-! ### Exact-size formatting writes precisely the decimal digits -/

theorem int_to_bytes_exact (n c : Nat) :
    int_to_bytes n (List.replicate (digits10 n) c) = padDigits n (digits10 n) := by
  rw [int_to_bytes, List.length_replicate, intToBytesChunkLoop_eq]
  by_cases hrem : digits10 n % 4 = 0
  · rw [hrem]
    simp only [List.take_zero, List.reverse_nil, fixupRev, List.reverse_nil,
      List.nil_append]
    have : 4 * (digits10 n / 4) = digits10 n := by omega
    rw [this]
  · have hrm : digits10 n % 4 ≤ digits10 n := Nat.mod_le _ _
    rw [List.take_replicate, Nat.min_eq_left hrm, List.reverse_replicate]
    have hlog : 4 * (digits10 n / 4) ≤ Nat.log 10 n := by
      have := digits10_eq_log n
      omega
    have hfin : digits10 (n / 10 ^ (4 * (digits10 n / 4))) = digits10 n % 4 := by
      rw [digits10_div_pow n _ hlog]
      omega
    rw [fixupRev_spec (List.replicate (digits10 n % 4) c) _
      (by rw [List.length_replicate, hfin]), hfin]
    rw [show List.drop (digits10 n % 4) (List.replicate (digits10 n % 4) c) = []
      from by simp]
    rw [List.append_nil, List.reverse_reverse,
      padDigits_append n (digits10 n % 4) (4 * (digits10 n / 4))]
    congr 1
    omega

/-- The value-driven int_to_bytes of src/convert.rs writes exactly the
digits10(n) decimal digits of n right-aligned and returns every byte to
their left unchanged. -/
theorem c_int_to_bytes_spec (n : Nat) (buff : List Nat)
    (h : digits10 n ≤ buff.length) :
    c_int_to_bytes n buff =
      buff.take (buff.length - digits10 n) ++ padDigits n (digits10 n) := by
  obtain ⟨j, hj1, hj2, hj3⟩ := cChunkLoop_spec n
  have hjD : 4 * j + 1 ≤ digits10 n ∨ j = 0 := by
    rcases hj3 with h0 | hge
    · exact Or.inr h0
    · left
      have hn0 : n ≠ 0 := by
        have : (0:Nat) < 10 ^ (4 * j) := Nat.pos_pow_of_pos _ (by omega)
        omega
      have := (Nat.pow_le_iff_le_log (by norm_num) hn0).1 hge
      have := digits10_eq_log n
      omega
  rcases hjD with hjD | hj0
  · -- at least one chunk boundary below the digit count
    have hlog : 4 * j ≤ Nat.log 10 n := by
      have := digits10_eq_log n
      omega
    have hfin : digits10 (n / 10 ^ (4 * j)) = digits10 n - 4 * j :=
      digits10_div_pow n _ hlog
    rw [c_int_to_bytes, hj1]
    simp only [padDigits_length]
    have hlen1 : (buff.take (buff.length - 4 * j)).length = buff.length - 4 * j := by
      rw [List.length_take]
      omega
    rw [fixupRev_spec _ _ (by rw [List.length_reverse, hlen1, hfin]; omega), hfin]
    have e1 : (buff.length - 4 * j - (digits10 n - 4 * j)) ⊓ (buff.length - 4 * j)
        = buff.length - digits10 n := by
      omega
    have e2 : digits10 n - 4 * j + 4 * j = digits10 n := by omega
    rw [List.reverse_append, List.reverse_reverse, List.drop_reverse,
      List.reverse_reverse, hlen1, List.take_take, List.append_assoc,
      padDigits_append n (digits10 n - 4 * j) (4 * j), e1, e2]
  · -- no chunks were written at all
    subst hj0
    rw [c_int_to_bytes, hj1]
    simp only [Nat.mul_zero, pow_zero, Nat.div_one, padDigits, List.length_nil,
      Nat.sub_zero, List.take_length, List.append_nil]
    rw [fixupRev_spec _ _ (by rw [List.length_reverse]; exact h)]
    rw [List.reverse_append, List.reverse_reverse, List.drop_reverse,
      List.reverse_reverse]

/-! ### The u8 formatter and itoa -/

theorem u8FixupRev_spec : ∀ (lst : List Nat) (self : Nat),
    digits10 self = lst.length →
    u8FixupRev self lst = (padDigits self (digits10 self)).reverse
  | [], self, h => by
    have := digits10_pos self
    simp at h
    omega
  | b :: bs, self, h => by
    by_cases hs : self < 10
    · have hD : digits10 self = 1 := digits10_lt10 self hs
      have hbs : bs = [] := by
        rw [hD, List.length_cons] at h
        exact List.length_eq_zero.1 (by omega)
      subst hbs
      rw [u8FixupRev, hD]
      by_cases h0 : self = 0
      · rw [if_pos h0, h0]
        simp [padDigits, ASCII_TO_INT_FACTOR]
      · rw [if_neg h0, show u8FixupRev (self / 10) [] = [] from rfl]
        simp [padDigits, ASCII_TO_INT_FACTOR]
    · have hD : digits10 self = digits10 (self / 10) + 1 := digits10_ge10 self (by omega)
      have h0 : self ≠ 0 := by omega
      rw [u8FixupRev, if_neg h0,
        u8FixupRev_spec bs (self / 10) (by rw [List.length_cons] at h; omega),
        hD, padDigits_snoc, List.reverse_append]
      simp [ASCII_TO_INT_FACTOR]

theorem u8_itoa_spec (n : Nat) (h : n < 1000) :
    u8_itoa n = padDigits n (digits10 n) := by
  rw [u8_itoa, u8_int_to_bytes, u8_digits10_eq n h, List.reverse_replicate,
    u8FixupRev_spec _ n (by rw [List.length_replicate]), List.reverse_reverse]

theorem itoa_spec (n : Nat) : itoa n = padDigits n (digits10 n) := by
  rw [itoa, int_to_bytes_exact]

/-! ### Round trips: parsing the formatted digits -/

theorem bytes_to_int_padDigits (w N : Nat) (table : List Nat)
    (htab : table = pow10Table N) (hN : 0 < N) (n : Nat) (hw : n < 2 ^ w)
    (hpow : 2 ^ w ≤ 10 ^ N) :
    bytes_to_int w table (padDigits n (digits10 n)) = Except.ok n := by
  have hD : digits10 n ≤ N := digits10_le n N hN (by omega)
  rw [bytes_to_int_allDigits w N table _ htab (padDigits_allDigits n _)
    (by rw [padDigits_length]; exact hD)]
  rw [decimalOf_padDigits, Nat.mod_eq_of_lt (digits10_lt_pow n), Nat.mod_eq_of_lt hw]

theorem u8_bytes_to_int_padDigits (n : Nat) (hw : n < 2 ^ 8) :
    u8_bytes_to_int (padDigits n (digits10 n)) = Except.ok n := by
  have hD : digits10 n ≤ 3 := digits10_le n 3 (by norm_num) (by norm_num; omega)
  rw [u8_bytes_to_int_allDigits _ (padDigits_allDigits n _)
    (by rw [padDigits_length]; exact hD)]
  rw [decimalOf_padDigits, Nat.mod_eq_of_lt (digits10_lt_pow n), Nat.mod_eq_of_lt hw]

theorem padDigits_head_ne45 (n L : Nat) :
    ¬(padDigits n (L + 1)).head? = some 45 := by
  rw [padDigits]
  simp [ASCII_TO_INT_FACTOR]

/-- Splitting the digit count exposes a nonempty padDigits list. -/
theorem padDigits_digits10_head_ne45 (n : Nat) :
    ¬(padDigits n (digits10 n)).head? = some 45 := by
  have h := digits10_pos n
  have e : digits10 n = (digits10 n - 1) + 1 := by omega
  rw [e]
  exact padDigits_head_ne45 n (digits10 n - 1)

theorem toSigned_small (w : Nat) (v : Nat) (h : v < 2 ^ (w - 1)) :
    toSigned w v = (v : Int) := by
  rw [toSigned, if_pos h]

theorem toUnsigned_nonneg (w : Nat) (i : Int) (h0 : 0 ≤ i) (hw : i < 2 ^ w) :
    toUnsigned w i = i.toNat := by
  rw [toUnsigned, Int.emod_eq_of_lt h0 (by exact_mod_cast hw)]

/-! ### Wrapping negation and casts for in-range negative values -/

theorem signed_cast_keys (w : Nat) (hw : 1 ≤ w) (i : Int)
    (h1 : -(2 ^ (w - 1) : Int) ≤ i) (h2 : i < 0) :
    toUnsigned w (sWrap w (-i)) = i.natAbs ∧
    toUnsigned w (wrappingAbs w (sWrap w (-i))) = i.natAbs := by
  have hm : (i.natAbs : Int) = -i := Int.ofNat_natAbs_of_nonpos (le_of_lt h2)
  have hB2 : (2 : Int) ^ w = 2 * 2 ^ (w - 1) := by
    conv_lhs => rw [show w = (w - 1) + 1 by omega]
    rw [pow_succ']
  have hBpos : (0 : Int) < 2 ^ (w - 1) := pow_pos (by norm_num) _
  rcases lt_or_eq_of_le (show -i ≤ (2 : Int) ^ (w - 1) by omega) with hlt | heq
  · have e1 : sWrap w (-i) = -i := by
      rw [sWrap, Int.emod_eq_of_lt (by omega) (by rw [hB2]; omega)]
      ring
    have e2 : toUnsigned w (-i) = i.natAbs := by
      rw [toUnsigned, Int.emod_eq_of_lt (by omega) (by rw [hB2]; omega), ← hm,
        Int.toNat_natCast]
    refine ⟨by rw [e1, e2], ?_⟩
    rw [e1, wrappingAbs, if_neg (by omega), e2]
  · have e1 : sWrap w (-i) = -(2 ^ (w - 1)) := by
      rw [sWrap, show -i + (2 : Int) ^ (w - 1) = 2 ^ w from by rw [hB2]; omega,
        Int.emod_self]
      ring
    have e2 : toUnsigned w (-(2 ^ (w - 1) : Int)) = i.natAbs := by
      rw [toUnsigned]
      have hmod : (-(2 ^ (w - 1) : Int)) % 2 ^ w = 2 ^ (w - 1) := by
        have hk := Int.add_mul_emod_self_left (2 ^ (w - 1)) (2 ^ w) (-1)
        rw [show (2 ^ (w - 1) : Int) + 2 ^ w * (-1) = -(2 ^ (w - 1)) from by
          rw [hB2]; ring] at hk
        rw [hk, Int.emod_eq_of_lt (le_of_lt hBpos) (by rw [hB2]; omega)]
      rw [hmod, ← heq, ← hm, Int.toNat_natCast]
    refine ⟨by rw [e1, e2], ?_⟩
    rw [e1, wrappingAbs, if_pos (by omega)]
    have e3 : sWrap w (-(-(2 ^ (w - 1) : Int))) = -(2 ^ (w - 1)) := by
      rw [neg_neg, sWrap, show (2 ^ (w - 1) : Int) + 2 ^ (w - 1) = 2 ^ w from by
        rw [hB2]; ring, Int.emod_self]
      ring
    rw [e3, e2]

theorem c_u8_int_to_bytes_spec (n : Nat) (buff : List Nat)
    (h : digits10 n ≤ buff.length) :
    c_u8_int_to_bytes n buff =
      buff.take (buff.length - digits10 n) ++ padDigits n (digits10 n) := by
  rw [c_u8_int_to_bytes, fixupRev_spec _ _ (by rw [List.length_reverse]; exact h)]
  rw [List.reverse_append, List.reverse_reverse, List.drop_reverse,
    List.reverse_reverse]

theorem c_signed_itoa_neg (w : Nat) (hw : 1 ≤ w) (udigits : Nat → Nat)
    (uitb : Nat → List Nat → List Nat) (i : Int)
    (h1 : -(2 ^ (w - 1) : Int) ≤ i) (h2 : i < 0)
    (hd : udigits i.natAbs = digits10 i.natAbs)
    (hb : ∀ buff : List Nat, digits10 i.natAbs ≤ buff.length →
      uitb i.natAbs buff =
        buff.take (buff.length - digits10 i.natAbs) ++
          padDigits i.natAbs (digits10 i.natAbs)) :
    c_signed_itoa w udigits uitb i =
      45 :: padDigits i.natAbs (digits10 i.natAbs) := by
  obtain ⟨k1, k2⟩ := signed_cast_keys w hw i h1 h2
  rw [c_signed_itoa, if_pos h2, signed_digits10, k2, k1, hd]
  rw [show List.replicate (digits10 i.natAbs + 1) 0
      = 0 :: List.replicate (digits10 i.natAbs) 0 from
    List.replicate_succ 0 (digits10 i.natAbs), List.set_cons_zero]
  rw [hb (45 :: List.replicate (digits10 i.natAbs) 0) (by simp)]
  have hlen : (45 :: List.replicate (digits10 i.natAbs) 0).length
      - digits10 i.natAbs = 1 := by
    simp
  rw [hlen]
  simp

/-! ### Round trip of non-negative signed values -/

theorem signed_roundtrip_nonneg (w N : Nat) (table : List Nat)
    (htab : table = pow10Table N) (hN : 0 < N) (hpow : 2 ^ w ≤ 10 ^ N)
    (hw : 1 ≤ w) (i : Int) (h0 : 0 ≤ i) (hi : i < 2 ^ (w - 1)) :
    signed_bytes_to_int w (bytes_to_int w table)
      (signed_itoa w digits10 int_to_bytes i) = Except.ok i := by
  have hle : (2 : Int) ^ (w - 1) ≤ 2 ^ w :=
    pow_le_pow_right₀ (by norm_num) (by omega)
  have hi2 : i < (2 : Int) ^ w := lt_of_lt_of_le hi hle
  have hcast : (i.toNat : Int) = i := Int.toNat_of_nonneg h0
  have hmw : i.toNat < 2 ^ w := by
    have hx : (i.toNat : Int) < (2 : Int) ^ w := by rw [hcast]; exact hi2
    exact_mod_cast hx
  have hmw1 : i.toNat < 2 ^ (w - 1) := by
    have hx : (i.toNat : Int) < (2 : Int) ^ (w - 1) := by rw [hcast]; exact hi
    exact_mod_cast hx
  rw [signed_itoa, if_neg (not_lt.2 h0), if_neg (not_lt.2 h0), signed_digits10,
    wrappingAbs, if_neg (not_lt.2 h0), toUnsigned_nonneg w i h0 hi2,
    int_to_bytes_exact]
  rw [signed_bytes_to_int, if_neg (padDigits_digits10_head_ne45 i.toNat),
    bytes_to_int_padDigits w N table htab hN i.toNat hmw hpow]
  simp [Except.map, toSigned_small w i.toNat hmw1, hcast]

theorem signed_roundtrip_nonneg_u8 (i : Int) (h0 : 0 ≤ i) (hi : i < 2 ^ 7) :
    i8_bytes_to_int (i8_itoa i) = Except.ok i := by
  have h128 : i < 128 := by
    have hx := hi
    norm_num at hx
    exact hx
  have hcast : (i.toNat : Int) = i := Int.toNat_of_nonneg h0
  have hmw : i.toNat < 2 ^ 8 := by norm_num; omega
  have hmw1 : i.toNat < 2 ^ 7 := by norm_num; omega
  rw [i8_itoa, signed_itoa, if_neg (not_lt.2 h0), if_neg (not_lt.2 h0),
    signed_digits10, wrappingAbs, if_neg (not_lt.2 h0),
    toUnsigned_nonneg 8 i h0 (by norm_num; omega)]
  rw [u8_digits10_eq i.toNat (by omega)]
  rw [u8_int_to_bytes, List.reverse_replicate,
    u8FixupRev_spec _ i.toNat (by rw [List.length_replicate]),
    List.reverse_reverse]
  rw [i8_bytes_to_int, signed_bytes_to_int,
    if_neg (padDigits_digits10_head_ne45 i.toNat),
    u8_bytes_to_int_padDigits i.toNat hmw]
  simp [Except.map, toSigned_small 8 i.toNat hmw1, hcast]

/-! ### Claim C7: digits10 counts the canonical decimal digits -/

/-- C7: for every non-negative integer of a supported width, digits10 equals
the number of characters of the canonical decimal representation (the length
of Nat.digits 10 for positive n), digits10 0 = 1, digits10 is never 0, and
the u8 specialisation agrees on the whole u8 range. -/
theorem digits10_canonical :
    digits10 0 = 1 ∧ (∀ n : Nat, digits10 n ≠ 0) ∧
    (∀ n : Nat, 0 < n → digits10 n = (Nat.digits 10 n).length) ∧
    (∀ n : Nat, n < 256 → u8_digits10 n = digits10 n) := by
  refine ⟨digits10_lt10 0 (by norm_num), fun n => by have := digits10_pos n; omega,
    fun n hn => ?_, fun n hn => u8_digits10_eq n (by omega)⟩
  rw [digits10_eq_log, Nat.digits_len 10 n (by norm_num) (by omega)]

/-- C7 witness: digits10 12345 is the 5-character decimal length, and the u8
specialisation agrees at 255. -/
theorem digits10_canonical_witness :
    digits10 12345 = (Nat.digits 10 12345).length ∧
    u8_digits10 255 = digits10 255 :=
  ⟨digits10_canonical.2.2.1 12345 (by norm_num),
   digits10_canonical.2.2.2 255 (by norm_num)⟩

/-! ### Claim C8: head preservation when formatting into larger buffers -/

/-- C8 counterexample: the buffer-driven int_to_bytes of src/into_ascii.rs
does NOT leave the bytes left of the digits unchanged: writing 5 into the
5-byte buffer "AAAAA" produces "00005", zero-padding the head (the claim
requires the first four bytes to remain 65). -/
theorem int_to_bytes_zero_pads_cex :
    int_to_bytes 5 [65, 65, 65, 65, 65] = [48, 48, 48, 48, 53] ∧
    (int_to_bytes 5 [65, 65, 65, 65, 65]).take 4 ≠ [65, 65, 65, 65] := by
  constructor <;> decide

/-- C8 (amended): the head-preservation invariant holds for the value-driven
int_to_bytes of src/convert.rs: for every buffer at least digits10(n) long it
writes exactly the digits of n right-aligned and returns every byte to their
left unchanged.  The buffer-driven int_to_bytes of src/into_ascii.rs instead
unconditionally overwrites the whole right-aligned 4-chunk region
(zero-padding it), as the counterexample shows. -/
theorem int_to_bytes_head_preserved_amended (n : Nat) (buff : List Nat)
    (h : digits10 n ≤ buff.length) :
    c_int_to_bytes n buff =
      buff.take (buff.length - digits10 n) ++ padDigits n (digits10 n) :=
  c_int_to_bytes_spec n buff h

/-- C8 witness: writing 5 into the 5-byte buffer "AAAAA" with the convert.rs
formatter yields "AAAA5", all four head bytes untouched. -/
theorem int_to_bytes_head_preserved_witness :
    c_int_to_bytes 5 [65, 65, 65, 65, 65] = [65, 65, 65, 65, 53] := by
  have h5 : digits10 5 = 1 := digits10_lt10 5 (by norm_num)
  rw [int_to_bytes_head_preserved_amended 5 [65, 65, 65, 65, 65]
    (by rw [h5]; norm_num), h5]
  decide

/-! ### Claim C9: formatting negative values -/

/-- C9 counterexample: the signed itoa of src/into_ascii.rs formats -123 as
"0123": the minus byte that pre-fills the buffer is overwritten by the
4-chunk zero padding whenever digits10(magnitude) + 1 is a multiple of 4, so
the output is not one minus byte followed by the magnitude digits. -/
theorem signed_itoa_sign_overwritten_cex :
    i32_itoa (-123) = [48, 49, 50, 51] ∧ i32_itoa (-123) ≠ [45, 49, 50, 51] := by
  have h : i32_itoa (-123) = [48, 49, 50, 51] := by
    simp [i32_itoa, signed_itoa, signed_digits10, wrappingAbs, sWrap, toUnsigned,
      digits10, digits10Loop, int_to_bytes, intToBytesChunkLoop, chunkDigits,
      fixupRev, ASCII_TO_INT_FACTOR]
  exact ⟨h, by rw [h]; decide⟩

/-- C9 (amended): for the signed itoa of src/convert.rs the claim holds: for
every negative in-range value the output is exactly one minus byte followed
by the decimal digits of the (wrapping) magnitude, with total length
digits10(magnitude) + 1.  The src/into_ascii.rs itoa satisfies this only when
digits10(magnitude) + 1 is not a multiple of 4 (see the counterexample). -/
theorem signed_itoa_neg_amended :
    (∀ i : Int, -(2 ^ 7 : Int) ≤ i → i < 0 →
      c_i8_itoa i = 45 :: padDigits i.natAbs (digits10 i.natAbs)) ∧
    (∀ i : Int, -(2 ^ 15 : Int) ≤ i → i < 0 →
      c_i16_itoa i = 45 :: padDigits i.natAbs (digits10 i.natAbs)) ∧
    (∀ i : Int, -(2 ^ 31 : Int) ≤ i → i < 0 →
      c_i32_itoa i = 45 :: padDigits i.natAbs (digits10 i.natAbs)) ∧
    (∀ i : Int, -(2 ^ 63 : Int) ≤ i → i < 0 →
      c_i64_itoa i = 45 :: padDigits i.natAbs (digits10 i.natAbs)) := by
  refine ⟨fun i h1 h2 => ?_, fun i h1 h2 => ?_, fun i h1 h2 => ?_,
    fun i h1 h2 => ?_⟩
  · have habs : i.natAbs ≤ 128 := by
      have hm : (i.natAbs : Int) = -i := Int.ofNat_natAbs_of_nonpos (le_of_lt h2)
      have hx : (i.natAbs : Int) ≤ 128 := by
        rw [hm]
        norm_num at h1
        omega
      exact_mod_cast hx
    exact c_signed_itoa_neg 8 (by norm_num) u8_digits10 c_u8_int_to_bytes i h1 h2
      (u8_digits10_eq i.natAbs (by omega))
      (fun buff hb => c_u8_int_to_bytes_spec i.natAbs buff hb)
  · exact c_signed_itoa_neg 16 (by norm_num) digits10 c_int_to_bytes i h1 h2 rfl
      (fun buff hb => c_int_to_bytes_spec i.natAbs buff hb)
  · exact c_signed_itoa_neg 32 (by norm_num) digits10 c_int_to_bytes i h1 h2 rfl
      (fun buff hb => c_int_to_bytes_spec i.natAbs buff hb)
  · exact c_signed_itoa_neg 64 (by norm_num) digits10 c_int_to_bytes i h1 h2 rfl
      (fun buff hb => c_int_to_bytes_spec i.natAbs buff hb)

/-- C9 witness: the convert.rs itoa formats -123 as "-123". -/
theorem signed_itoa_neg_amended_witness :
    c_i32_itoa (-123) = [45, 49, 50, 51] := by
  rw [signed_itoa_neg_amended.2.2.1 (-123) (by norm_num) (by norm_num),
    show ((-123 : Int)).natAbs = 123 from rfl,
    show digits10 123 = 3 from by simp [digits10, digits10Loop]]
  decide

/-! ### Claim C2: the parse / format round trip -/

/-- C2 counterexample: the round trip fails for the signed width 16 at -123:
itoa(-123) is "0123" (the sign byte is overwritten by the buffer-driven
formatter of src/into_ascii.rs), which parses back to +123, not -123. -/
theorem atoi_itoa_roundtrip_cex :
    i16_bytes_to_int (i16_itoa (-123)) ≠ Except.ok (-123 : Int) := by
  have h : i16_itoa (-123) = [48, 49, 50, 51] := by
    simp [i16_itoa, signed_itoa, signed_digits10, wrappingAbs, sWrap, toUnsigned,
      digits10, digits10Loop, int_to_bytes, intToBytesChunkLoop, chunkDigits,
      fixupRev, ASCII_TO_INT_FACTOR]
  rw [h]
  decide

/-- C2 (amended): atoi(itoa(n)) = Ok(n) holds for every value of the four
unsigned widths, and for every NON-NEGATIVE value of the four signed widths.
For negative signed values it fails whenever digits10(magnitude) + 1 is a
multiple of 4, because the into_ascii.rs formatter overwrites the sign byte
(see the counterexample at -123). -/
theorem atoi_itoa_roundtrip_amended :
    (∀ n : Nat, n < 2 ^ 8 → u8_bytes_to_int (u8_itoa n) = Except.ok n) ∧
    (∀ n : Nat, n < 2 ^ 16 → u16_bytes_to_int (itoa n) = Except.ok n) ∧
    (∀ n : Nat, n < 2 ^ 32 → u32_bytes_to_int (itoa n) = Except.ok n) ∧
    (∀ n : Nat, n < 2 ^ 64 → u64_bytes_to_int (itoa n) = Except.ok n) ∧
    (∀ i : Int, 0 ≤ i → i < 2 ^ 7 → i8_bytes_to_int (i8_itoa i) = Except.ok i) ∧
    (∀ i : Int, 0 ≤ i → i < 2 ^ 15 → i16_bytes_to_int (i16_itoa i) = Except.ok i) ∧
    (∀ i : Int, 0 ≤ i → i < 2 ^ 31 → i32_bytes_to_int (i32_itoa i) = Except.ok i) ∧
    (∀ i : Int, 0 ≤ i → i < 2 ^ 63 → i64_bytes_to_int (i64_itoa i) = Except.ok i) := by
  refine ⟨fun n hn => ?_, fun n hn => ?_, fun n hn => ?_, fun n hn => ?_,
    fun i h0 hi => signed_roundtrip_nonneg_u8 i h0 hi,
    fun i h0 hi => ?_, fun i h0 hi => ?_, fun i h0 hi => ?_⟩
  · rw [u8_itoa_spec n (by norm_num at hn; omega), u8_bytes_to_int_padDigits n hn]
  · rw [itoa_spec, u16_bytes_to_int,
      bytes_to_int_padDigits 16 5 POW10_U16 pow10_U16_eq (by norm_num) n hn
        (by norm_num)]
  · rw [itoa_spec, u32_bytes_to_int,
      bytes_to_int_padDigits 32 10 POW10_U32 pow10_U32_eq (by norm_num) n hn
        (by norm_num)]
  · rw [itoa_spec, u64_bytes_to_int,
      bytes_to_int_padDigits 64 20 POW10_U64 pow10_U64_eq (by norm_num) n hn
        (by norm_num)]
  · exact signed_roundtrip_nonneg 16 5 POW10_U16 pow10_U16_eq (by norm_num)
      (by norm_num) (by norm_num) i h0 hi
  · exact signed_roundtrip_nonneg 32 10 POW10_U32 pow10_U32_eq (by norm_num)
      (by norm_num) (by norm_num) i h0 hi
  · exact signed_roundtrip_nonneg 64 20 POW10_U64 pow10_U64_eq (by norm_num)
      (by norm_num) (by norm_num) i h0 hi

/-- C2 witness: the u16 round trip at 257. -/
theorem atoi_itoa_roundtrip_witness :
    u16_bytes_to_int (itoa 257) = Except.ok 257 :=
  atoi_itoa_roundtrip_amended.2.1 257 (by norm_num)

/-! ### Claim C3: the 64-bit signed minimum -/

/-- C3 counterexample: re-formatting the i64 minimum with the itoa of
src/into_ascii.rs does NOT reproduce "-9223372036854775808": the sign byte
is overwritten by the zero padding of the 20-byte (multiple of 4) buffer,
producing "09223372036854775808". -/
theorem i64_min_reformat_cex :
    i64_itoa (-9223372036854775808) ≠
      [45, 57, 50, 50, 51, 51, 55, 50, 48, 51, 54, 56, 53, 52, 55, 55, 53, 56,
       48, 56] := by
  have hneg : (-9223372036854775808 : Int) < 0 := by norm_num
  have hcast : toUnsigned 64 (sWrap 64 (-(-9223372036854775808 : Int)))
      = 9223372036854775808 := by decide
  have hc2 : toUnsigned 64 (wrappingAbs 64 (-9223372036854775808 : Int))
      = 9223372036854775808 := by decide
  have hsd : signed_digits10 64 digits10 (-9223372036854775808 : Int) = 19 := by
    rw [signed_digits10, hc2]
    simp [digits10, digits10Loop]
  rw [i64_itoa, signed_itoa, if_pos hneg, if_pos hneg, hcast, hsd]
  have h : int_to_bytes 9223372036854775808 (List.replicate (19 + 1) 45) =
      [48, 57, 50, 50, 51, 51, 55, 50, 48, 51, 54, 56, 53, 52, 55, 55, 53, 56,
       48, 56] := by
    simp [int_to_bytes, intToBytesChunkLoop, chunkDigits, fixupRev,
      ASCII_TO_INT_FACTOR]
  rw [h]
  decide

/-- C3 (amended): parsing "-9223372036854775808" as i64 succeeds and yields
the minimum value (the wrapping negation makes the minimum round-trip on the
parse side), and the value-driven convert.rs itoa re-formats the minimum to
exactly that string.  The into_ascii.rs itoa does not (counterexample): it
yields "09223372036854775808". -/
theorem i64_min_roundtrip_amended :
    i64_bytes_to_int
        [45, 57, 50, 50, 51, 51, 55, 50, 48, 51, 54, 56, 53, 52, 55, 55, 53,
         56, 48, 56] = Except.ok (-9223372036854775808 : Int) ∧
    c_i64_itoa (-9223372036854775808) =
      [45, 57, 50, 50, 51, 51, 55, 50, 48, 51, 54, 56, 53, 52, 55, 55, 53, 56,
       48, 56] := by
  constructor
  · rfl
  · rw [show c_i64_itoa (-9223372036854775808)
        = c_signed_itoa 64 digits10 c_int_to_bytes (-9223372036854775808)
      from rfl,
      c_signed_itoa_neg 64 (by norm_num) digits10 c_int_to_bytes
        (-9223372036854775808) (by norm_num) (by norm_num) rfl
        (fun buff hb => c_int_to_bytes_spec _ buff hb),
      show ((-9223372036854775808 : Int)).natAbs = 9223372036854775808 from rfl,
      show digits10 9223372036854775808 = 19 from by simp [digits10, digits10Loop]]
    simp [padDigits, ASCII_TO_INT_FACTOR]

end ByteNum

